import Mathlib

/-!
Shallow embedding of `src/rust_app/src/gap_calculator.rs` (function
`calculate_gaps`) together with the data it manipulates.

Modelling conventions:
* `f32` values are modelled by `F32`: either an exact rational (`fin q`,
  idealising finite floats as exact rationals) or one of the special
  values `nan`, `inf`, `ninf`.  The operations used by the source
  (addition, division by the positive constant `CHECKPOINT_INTERVAL`,
  `floor`, the saturating `as i32` cast, `partial_cmp`, subtraction)
  follow IEEE-754 behaviour on the special values.
* `i32` indices and checkpoints are modelled by `Int` (the `as i32`
  cast keeps its saturating/NaN-to-zero behaviour in `F32.toI32`).
* The global `static CHECKPOINT_HISTORY: Option<HashMap<i32, HashMap<i32, f32>>>`
  is threaded explicitly as a `History := Int → Int → Option F32`
  (the lazily-created inner maps are observationally identical to the
  function model: every car ranked in a tick has had its inner map
  created by the history-update loop before any gap lookup happens, so
  the `None` fall-back branches of the gap loops are unreachable).
* `car_data: HashMap<i32, (f32, i32, f32)>` is built with the distinct
  keys `0, 1, …` in index order; `car_data.into_iter()` enumerates a
  std `HashMap` in an unspecified, run-dependent order, which is
  modelled by an explicit `order` parameter applied to the
  insertion-ordered association list.
* The Rust stable `sort_by` is modelled by a stable insertion sort with
  the very same three-way comparator.
-/

/-- Model of an `f32` value: an exact rational or a special value. -/
inductive F32 where
  | fin (q : ℚ)
  | nan
  | inf
  | ninf
deriving DecidableEq, Repr

instance : Inhabited F32 := ⟨F32.fin 0⟩

/-- Exact rational addition, written in the kernel-reducible
`mkRat`-normal form; `qadd_eq` below shows it is ordinary addition. -/
def qadd (a b : ℚ) : ℚ :=
  mkRat (a.num * (b.den : Int) + b.num * (a.den : Int)) (a.den * b.den)

/-- Exact rational subtraction in `mkRat`-normal form; `qsub_eq` below
shows it is ordinary subtraction. -/
def qsub (a b : ℚ) : ℚ :=
  mkRat (a.num * (b.den : Int) - b.num * (a.den : Int)) (a.den * b.den)

/-- Exact rational division by a positive rational, in `mkRat`-normal
form; `qdivPos_eq` below shows it is ordinary division whenever the
divisor is positive. -/
def qdivPos (a b : ℚ) : ℚ :=
  mkRat (a.num * (b.den : Int)) (a.den * b.num.toNat)

/-- Three-way comparison of rationals (the total order on finite floats). -/
def qcmp (a b : ℚ) : Ordering :=
  if a < b then .lt else if a = b then .eq else .gt

/-- `PartialOrd::partial_cmp` on `f32`: `none` iff one side is NaN. -/
def F32.pcmp : F32 → F32 → Option Ordering
  | .nan, _ => none
  | _, .nan => none
  | .fin a, .fin b => some (qcmp a b)
  | .inf, .inf => some .eq
  | .inf, _ => some .gt
  | _, .inf => some .lt
  | .ninf, .ninf => some .eq
  | .ninf, _ => some .lt
  | _, .ninf => some .gt

/-- IEEE `f32` addition on the model (finite arithmetic idealised as exact). -/
def F32.add : F32 → F32 → F32
  | .nan, _ => .nan
  | _, .nan => .nan
  | .inf, .ninf => .nan
  | .ninf, .inf => .nan
  | .inf, _ => .inf
  | _, .inf => .inf
  | .ninf, _ => .ninf
  | _, .ninf => .ninf
  | .fin a, .fin b => .fin (qadd a b)

/-- IEEE `f32` subtraction on the model (finite arithmetic idealised as exact). -/
def F32.sub : F32 → F32 → F32
  | .nan, _ => .nan
  | _, .nan => .nan
  | .inf, .inf => .nan
  | .ninf, .ninf => .nan
  | .inf, _ => .inf
  | _, .inf => .ninf
  | .ninf, _ => .ninf
  | _, .ninf => .inf
  | .fin a, .fin b => .fin (qsub a b)

/-- `const CHECKPOINT_INTERVAL: f32 = 0.05;` (5% intervals), written in
`mkRat`-normal form; `CHECKPOINT_INTERVAL_eq` below shows it is `0.05`. -/
def CHECKPOINT_INTERVAL : ℚ := mkRat 1 20

/-- Division by the positive constant `CHECKPOINT_INTERVAL`
(`total_progress / CHECKPOINT_INTERVAL`); the constant is positive and
finite, so signs of the special values are preserved. -/
def F32.divC : F32 → F32
  | .fin q => .fin (qdivPos q CHECKPOINT_INTERVAL)
  | .nan => .nan
  | .inf => .inf
  | .ninf => .ninf

/-- `f32::floor`. -/
def F32.floorF : F32 → F32
  | .fin q => .fin (⌊q⌋ : ℚ)
  | .nan => .nan
  | .inf => .inf
  | .ninf => .ninf

/-- Truncation of a rational toward zero (the rounding used by `as i32`). -/
def ratTrunc (q : ℚ) : Int :=
  if 0 ≤ q then ⌊q⌋ else ⌈q⌉

/-- The Rust saturating `as i32` cast on `f32`: NaN maps to `0`, the
infinities saturate, finite values truncate toward zero and saturate. -/
def F32.toI32 : F32 → Int
  | .fin q => max (-(2 ^ 31)) (min (2 ^ 31 - 1) (ratTrunc q))
  | .nan => 0
  | .inf => 2 ^ 31 - 1
  | .ninf => -(2 ^ 31)

/-- `true` exactly on non-special values. -/
def F32.isFinite : F32 → Bool
  | .fin _ => true
  | _ => false

/-- The rational carried by a finite value, or the default `d`. -/
def F32.toRatD (d : ℚ) : F32 → ℚ
  | .fin q => q
  | _ => d

/-- The projection of `TelemetryData` read and written by
`calculate_gaps`: the two optional per-car arrays and the session clock
(`pub SessionTime: f32`).  The computed `gap_data` is returned instead
of being stored back into the struct. -/
structure TelemetryData where
  CarIdxLapDistPct : Option (List F32)
  CarIdxLapCompleted : Option (List Int)
  SessionTime : F32

/-- The per-car checkpoint history
`CHECKPOINT_HISTORY: HashMap<i32, HashMap<i32, f32>>`, as a function
from car index and checkpoint index to the recorded first-crossing
time. -/
def History : Type := Int → Int → Option F32

/-- The empty history (the freshly initialised `HashMap::new()`). -/
def emptyHist : History := fun _ _ => none

/-- One record of the output vector, with exactly the fields built at
the `gap_data.push(GapData { .. })` site of the source (the `GapData`
struct itself is referenced from `telemetry_fields` but its definition
is determined by this construction site). -/
structure GapData where
  car_idx : Int
  position : Int
  gap_to_leader : F32
  gap_to_next : F32
  gap_to_prev : F32
  last_checkpoint : Int
  last_checkpoint_time : F32
deriving DecidableEq, Repr

instance : Inhabited GapData :=
  ⟨⟨0, 0, default, default, default, 0, default⟩⟩

/-- One entry of `car_data: HashMap<i32, (f32, i32, f32)>`: the key and
the `(total_progress, checkpoint, session_time)` triple. -/
structure CarEntry where
  idx : Int
  progress : F32
  checkpoint : Int
  time : F32
deriving DecidableEq, Repr

instance : Inhabited CarEntry := ⟨⟨0, default, 0, default⟩⟩

/-- `if !car_history.contains_key(&checkpoint) { car_history.insert(checkpoint, session_time); }` -/
def recordCheckpoint (h : History) (car cp : Int) (t : F32) : History :=
  if (h car cp).isNone then
    fun c k => if c = car ∧ k = cp then some t else h c k
  else h

/-- The per-car computation of the collection loop body: total progress
`dist_pct + completed_laps as f32`, checkpoint
`(total_progress / CHECKPOINT_INTERVAL).floor() as i32`, current time. -/
def carEntryAt (laps : List Int) (t : F32) (k : Nat) (d : F32) : CarEntry :=
  let tp := F32.add d (F32.fin ((laps.getD k 0 : Int) : ℚ))
  { idx := (k : Int)
    progress := tp
    checkpoint := F32.toI32 (F32.floorF (F32.divC tp))
    time := t }

/-- The collection loop `for (i, &dist_pct) in lap_dist_pcts.iter().enumerate()`:
updates the checkpoint history (first crossing only) and builds the
`car_data` entries in key order `k, k+1, …`. -/
def processCars (laps : List Int) (t : F32) : List F32 → Nat → History → History × List CarEntry
  | [], _, h => (h, [])
  | d :: ds, k, h =>
    let e := carEntryAt laps t k d
    let h1 := recordCheckpoint h e.idx e.checkpoint t
    let r := processCars laps t ds (k + 1) h1
    (r.1, e :: r.2)

/-- The sort comparator
`b.1.0.partial_cmp(&a.1.0).unwrap_or(Equal).then(a.1.2.partial_cmp(&b.1.2).unwrap_or(Equal))`. -/
def carCmp (a b : CarEntry) : Ordering :=
  ((F32.pcmp b.progress a.progress).getD .eq).then
    ((F32.pcmp a.time b.time).getD .eq)

/-- The strict "comes before" test induced by the comparator. -/
def carLt (a b : CarEntry) : Bool := carCmp a b == .lt

/-- Insert `x` into an already sorted list, after every element it does
not strictly precede (the placement a stable sort gives it). -/
def insertSorted (lt : α → α → Bool) (x : α) : List α → List α
  | [] => [x]
  | y :: ys => if lt x y then x :: y :: ys else y :: insertSorted lt x ys

/-- Stable sort (left-to-right insertion), modelling the stable
`sorted_cars.sort_by(..)` of the source. -/
def stableSort (lt : α → α → Bool) (l : List α) : List α :=
  l.foldl (fun acc x => insertSorted lt x acc) []

/-- The common-checkpoint loop
`while common_checkpoint > 0 { if both contain it { break a - b } else decrement }`,
phrased over the number `n` of strictly positive checkpoints still to
inspect: checkpoint `n` is inspected first, the loop never inspects
checkpoint `0`, and falls back to `0.0`. -/
def searchGap (hA hB : Int → Option F32) : Nat → F32
  | 0 => F32.fin 0
  | n + 1 =>
    match hA ((n : Int) + 1), hB ((n : Int) + 1) with
    | some tA, some tB => F32.sub tA tB
    | some _, none => searchGap hA hB n
    | none, some _ => searchGap hA hB n
    | none, none => searchGap hA hB n

/-- `gap_to_leader`: `0.0` for position 0, otherwise the common-checkpoint
search against the car at sorted position 0, starting from the own checkpoint of the current
car. -/
def gapToLeader (h : History) (sorted : List CarEntry) (i : Nat) : F32 :=
  if i = 0 then F32.fin 0
  else
    let a := sorted.getD i default
    let b := sorted.getD 0 default
    searchGap (h a.idx) (h b.idx) a.checkpoint.toNat

/-- `gap_to_next`: `0.0` for the last position, otherwise the search
against the car at position `i+1`, starting from the own checkpoint of the current
car. -/
def gapToNext (h : History) (sorted : List CarEntry) (i : Nat) : F32 :=
  if i = sorted.length - 1 then F32.fin 0
  else
    let a := sorted.getD i default
    let b := sorted.getD (i + 1) default
    searchGap (h a.idx) (h b.idx) a.checkpoint.toNat

/-- `gap_to_prev`: `0.0` for position 0, otherwise the search against
the car at position `i-1`, starting from the own checkpoint of the current
car. -/
def gapToPrev (h : History) (sorted : List CarEntry) (i : Nat) : F32 :=
  if i = 0 then F32.fin 0
  else
    let a := sorted.getD i default
    let b := sorted.getD (i - 1) default
    searchGap (h a.idx) (h b.idx) a.checkpoint.toNat

/-- The output loop `for (i, (car_idx, (total_progress, checkpoint, time))) in sorted_cars.iter().enumerate()`. -/
def mkRecords (h : History) (sorted : List CarEntry) : List GapData :=
  (List.range sorted.length).map fun i =>
    let e := sorted.getD i default
    { car_idx := e.idx
      position := (i : Int) + 1
      gap_to_leader := gapToLeader h sorted i
      gap_to_next := gapToNext h sorted i
      gap_to_prev := gapToPrev h sorted i
      last_checkpoint := e.checkpoint
      last_checkpoint_time := e.time }

/-- `telemetry_data.CarIdxLapDistPct.as_ref().unwrap_or(&empty_vec_f32)` -/
def distList (telem : TelemetryData) : List F32 :=
  telem.CarIdxLapDistPct.getD []

/-- `telemetry_data.CarIdxLapCompleted.as_ref().unwrap_or(&empty_vec_i32)` -/
def lapsList (telem : TelemetryData) : List Int :=
  telem.CarIdxLapCompleted.getD []

/-- The checkpoint history after the collection loop of one call. -/
def histAfter (h : History) (telem : TelemetryData) : History :=
  (processCars (lapsList telem) telem.SessionTime (distList telem) 0 h).1

/-- The `car_data` entries of one call, in key insertion order. -/
def carEntries (h : History) (telem : TelemetryData) : List CarEntry :=
  (processCars (lapsList telem) telem.SessionTime (distList telem) 0 h).2

/-- `sorted_cars`: the `car_data` entries, enumerated in the
`HashMap` iteration order `order`, then stably sorted. -/
def sortedCars (order : List CarEntry → List CarEntry) (h : History)
    (telem : TelemetryData) : List CarEntry :=
  stableSort carLt (order (carEntries h telem))

/-- The result of one call: the updated global history and the
`gap_data` vector stored into `telemetry_data.gap_data`. -/
structure GapsResult where
  hist : History
  records : List GapData

/-- `pub fn calculate_gaps(telemetry_data: &mut TelemetryData)`, with
the global history state `h` threaded explicitly and the `HashMap`
iteration order of `car_data.into_iter()` supplied as `order`. -/
def calculate_gaps (order : List CarEntry → List CarEntry) (h : History)
    (telem : TelemetryData) : GapsResult :=
  { hist := histAfter h telem
    records := mkRecords (histAfter h telem) (sortedCars order h telem) }

/-- A sequence of ticks fed through successive `calculate_gaps` calls,
returning the final global history. -/
def runTicks (order : List CarEntry → List CarEntry) : History → List TelemetryData → History
  | h, [] => h
  | h, tel :: rest => runTicks order ((calculate_gaps order h tel).hist) rest

/-- The gap value prescribed by the (amended) search description: the
most recent common checkpoint strictly between `0` and `start`
(inclusive), found by walking the strictly positive checkpoint indices
downward; `0.0` when none exists. -/
def specCommonGap (hA hB : Int → Option F32) (start : Nat) : F32 :=
  match (List.range' 1 start).reverse.find?
      (fun cp => (hA (Int.ofNat cp)).isSome && (hB (Int.ofNat cp)).isSome) with
  | some cp => F32.sub ((hA (Int.ofNat cp)).getD default) ((hB (Int.ofNat cp)).getD default)
  | none => F32.fin 0

/-- Modelled from the words of the claim (and of the spec, section 4.1
step 5): the most recent common checkpoint found by starting at
`min(A.checkpoint_index, B.checkpoint_index)` and walking the
checkpoint index downward toward `0`, *including* checkpoint `0`;
gap `= history[A][cp] - history[B][cp]`, and `0` when no common
checkpoint exists.  Used only to compare the claimed search with the
one in the source. -/
def claimCommonGap (hA hB : Int → Option F32) (startA startB : Int) : F32 :=
  match (List.range ((min startA startB).toNat + 1)).reverse.find?
      (fun cp => (hA (Int.ofNat cp)).isSome && (hB (Int.ofNat cp)).isSome) with
  | some cp => F32.sub ((hA (Int.ofNat cp)).getD default) ((hB (Int.ofNat cp)).getD default)
  | none => F32.fin 0

/-- The total progress of entity `e` for the current tick, read back
from the input arrays, as a rational (`0` for non-finite values). -/
def totalProgressRat (telem : TelemetryData) (e : Int) : ℚ :=
  F32.toRatD 0 (F32.add ((distList telem).getD e.toNat default)
    (F32.fin (((lapsList telem).getD e.toNat 0 : Int) : ℚ)))

/-- First tick of the session-regression scenario: one car at 10% of
lap 0 (checkpoint 2) with the session clock at `10.0`. -/
def tickA : TelemetryData := ⟨some [F32.fin (mkRat 1 10)], none, F32.fin 10⟩

/-- Second tick of the session-regression scenario: the session clock
regressed to `5.0` and the car is at 4% of lap 0 (checkpoint 0). -/
def tickB : TelemetryData := ⟨some [F32.fin (mkRat 1 25)], none, F32.fin 5⟩

/-- First tick of the checkpoint-zero scenario: one car at 1% of lap 0
(checkpoint 0), session clock `10.0`. -/
def tickC1 : TelemetryData := ⟨some [F32.fin (mkRat 1 100)], none, F32.fin 10⟩

/-- Second tick of the checkpoint-zero scenario: car 0 at 2% (still
checkpoint 0, already recorded), car 1 at 1% (checkpoint 0, newly
recorded), session clock `11.0`. -/
def tickC2 : TelemetryData := ⟨some [F32.fin (mkRat 1 50), F32.fin (mkRat 1 100)], none, F32.fin 11⟩

/-- A tick with two cars whose total progress is identical bit for
bit. -/
def tickTie : TelemetryData := ⟨some [F32.fin (mkRat 1 2), F32.fin (mkRat 1 2)], none, F32.fin 1⟩

/-- A tick whose only progress sample is NaN. -/
def tickNan : TelemetryData := ⟨some [F32.nan], none, F32.fin 10⟩

/-- A three-car tick with distinct finite progress values. -/
def tickThree : TelemetryData :=
  ⟨some [F32.fin (mkRat 3 10), F32.fin (mkRat 7 10), F32.fin (mkRat 1 2)], none, F32.fin 1⟩

/-- A single-car tick at 11% of lap 0, session clock `99.0`. -/
def tickLate : TelemetryData := ⟨some [F32.fin (mkRat 11 100)], none, F32.fin 99⟩

/-- A history holding a single recorded first crossing: car 0 crossed
checkpoint 2 at time `7.0`. -/
def histOne : History :=
  fun c k => if c = 0 ∧ k = 2 then some (F32.fin 7) else none

lemma carEntryAt_idx (laps : List Int) (t : F32) (k : Nat) (d : F32) :
    (carEntryAt laps t k d).idx = (k : Int) := rfl

lemma carEntryAt_time (laps : List Int) (t : F32) (k : Nat) (d : F32) :
    (carEntryAt laps t k d).time = t := rfl

lemma recordCheckpoint_pres (h : History) (c cp : Int) (t : F32) (e k : Int) (v : F32)
    (hv : h e k = some v) : recordCheckpoint h c cp t e k = some v := by
  by_cases hn : (h c cp).isNone
  · by_cases hek : e = c ∧ k = cp
    · obtain ⟨he, hk⟩ := hek
      subst he; subst hk
      rw [hv] at hn
      simp at hn
    · simp only [recordCheckpoint, if_pos hn, if_neg hek]
      exact hv
  · simp only [recordCheckpoint, if_neg hn]
    exact hv

lemma recordCheckpoint_outside (h : History) (c cp : Int) (t : F32) (e k : Int)
    (he : e ≠ c) : recordCheckpoint h c cp t e k = h e k := by
  by_cases hn : (h c cp).isNone
  · simp only [recordCheckpoint, if_pos hn]
    rw [if_neg]
    rintro ⟨h1, _⟩
    exact he h1
  · simp only [recordCheckpoint, if_neg hn]

lemma processCars_hist_pres (laps : List Int) (t : F32) (ds : List F32) (k : Nat)
    (h : History) (e c : Int) (v : F32) (hv : h e c = some v) :
    (processCars laps t ds k h).1 e c = some v := by
  induction ds generalizing k h with
  | nil => exact hv
  | cons d ds ih =>
    simp only [processCars]
    exact ih (k + 1) _ (recordCheckpoint_pres _ _ _ _ _ _ _ hv)

lemma processCars_hist_outside (laps : List Int) (t : F32) (ds : List F32) (k : Nat)
    (h : History) (e c : Int)
    (hout : ∀ j, j < ds.length → e ≠ ((k + j : Nat) : Int)) :
    (processCars laps t ds k h).1 e c = h e c := by
  induction ds generalizing k h with
  | nil => rfl
  | cons d ds ih =>
    simp only [processCars]
    rw [ih (k + 1) _ ?_, recordCheckpoint_outside]
    · rw [carEntryAt_idx]
      have h0 := hout 0 (by simp)
      simpa using h0
    · intro j hj
      have hj1 := hout (j + 1) (by simpa using Nat.succ_lt_succ hj)
      intro hcon
      apply hj1
      rw [hcon]
      push_cast
      ring

lemma processCars_snd (laps : List Int) (t : F32) (ds : List F32) (k : Nat) (h : History) :
    (processCars laps t ds k h).2
      = (List.range ds.length).map
          (fun j => carEntryAt laps t (k + j) (ds.getD j default)) := by
  induction ds generalizing k h with
  | nil => rfl
  | cons d ds ih =>
    simp only [processCars, List.length_cons, List.range_succ_eq_map, List.map_cons,
      List.map_map]
    refine congrArg₂ List.cons ?_ ?_
    · simp [List.getD_cons_zero]
    · rw [ih]
      refine List.map_congr_left ?_
      intro j _
      simp only [Function.comp_apply, List.getD_cons_succ, Nat.succ_eq_add_one]
      congr 1
      omega

lemma getD_map_range {β : Type} [Inhabited β] (f : Nat → β) (n i : Nat) (hi : i < n) :
    ((List.range n).map f).getD i default = f i := by
  rw [List.getD_eq_getElem?_getD, List.getElem?_map, List.getElem?_range hi]
  rfl

lemma map_getD_range {β : Type} [Inhabited α] (l : List α) (f : α → β) :
    (List.range l.length).map (fun k => f (l.getD k default)) = l.map f := by
  induction l with
  | nil => rfl
  | cons x xs ih =>
    simp only [List.length_cons, List.range_succ_eq_map, List.map_cons,
      List.getD_cons_zero, List.map_map]
    refine congrArg₂ List.cons rfl ?_
    rw [← ih]
    refine List.map_congr_left ?_
    intro j _
    simp [List.getD_cons_succ, Nat.succ_eq_add_one]

lemma mem_insertSorted (lt : α → α → Bool) (x a : α) (l : List α) :
    a ∈ insertSorted lt x l ↔ a = x ∨ a ∈ l := by
  induction l with
  | nil => simp [insertSorted]
  | cons y ys ih =>
    cases hxy : lt x y with
    | true =>
      simp only [insertSorted, hxy, if_pos]
      simp [List.mem_cons]
    | false =>
      simp only [insertSorted, hxy, Bool.false_eq_true, if_neg, not_false_iff]
      simp only [List.mem_cons, ih]
      tauto

lemma mem_foldl_insertSorted (lt : α → α → Bool) (l acc : List α) (a : α) :
    a ∈ l.foldl (fun s x => insertSorted lt x s) acc ↔ a ∈ acc ∨ a ∈ l := by
  induction l generalizing acc with
  | nil => simp
  | cons x xs ih =>
    simp only [List.foldl_cons, ih, mem_insertSorted, List.mem_cons]
    tauto

lemma mem_stableSort (lt : α → α → Bool) (l : List α) (a : α) :
    a ∈ stableSort lt l ↔ a ∈ l := by
  unfold stableSort
  rw [mem_foldl_insertSorted]
  simp

lemma pairwise_insertSorted (f : α → ℚ) (lt : α → α → Bool) (x : α) (l : List α)
    (hx : ∀ b ∈ l, (lt x b = true ↔ f b < f x))
    (hs : l.Pairwise (fun a b => f b ≤ f a)) :
    (insertSorted lt x l).Pairwise (fun a b => f b ≤ f a) := by
  induction l with
  | nil => simp [insertSorted]
  | cons y ys ih =>
    obtain ⟨hy, hys⟩ := List.pairwise_cons.mp hs
    have hxy := hx y (List.mem_cons_self y ys)
    cases hlt : lt x y with
    | true =>
      have hyx : f y < f x := hxy.mp hlt
      simp only [insertSorted, hlt, if_pos]
      refine List.pairwise_cons.mpr ⟨?_, hs⟩
      intro b hb
      rcases List.mem_cons.mp hb with rfl | hb
      · exact le_of_lt hyx
      · exact le_trans (hy b hb) (le_of_lt hyx)
    | false =>
      have hyx : ¬ f y < f x := by
        intro hcon
        rw [hxy.mpr hcon] at hlt
        simp at hlt
      simp only [insertSorted, hlt, Bool.false_eq_true, if_neg, not_false_iff]
      refine List.pairwise_cons.mpr ⟨?_, ?_⟩
      · intro b hb
        rcases (mem_insertSorted lt x b ys).mp hb with rfl | hb
        · exact le_of_not_lt hyx
        · exact hy b hb
      · exact ih (fun b hb => hx b (List.mem_cons_of_mem y hb)) hys

lemma pairwise_foldl_insertSorted (f : α → ℚ) (lt : α → α → Bool) (l acc : List α)
    (hagree : ∀ a ∈ l, ∀ b, b ∈ l ∨ b ∈ acc → (lt a b = true ↔ f b < f a))
    (hacc : acc.Pairwise (fun a b => f b ≤ f a)) :
    (l.foldl (fun s x => insertSorted lt x s) acc).Pairwise (fun a b => f b ≤ f a) := by
  induction l generalizing acc with
  | nil => exact hacc
  | cons x xs ih =>
    simp only [List.foldl_cons]
    refine ih _ ?_ ?_
    · intro a ha b hb
      refine hagree a (List.mem_cons_of_mem _ ha) b ?_
      rcases hb with hb | hb
      · exact Or.inl (List.mem_cons_of_mem _ hb)
      · rcases (mem_insertSorted lt x b acc).mp hb with rfl | hb
        · exact Or.inl (List.mem_cons_self _ _)
        · exact Or.inr hb
    · exact pairwise_insertSorted f lt x acc
        (fun b hb => hagree x (List.mem_cons_self _ _) b (Or.inr hb)) hacc

lemma pairwise_stableSort (f : α → ℚ) (lt : α → α → Bool) (l : List α)
    (hagree : ∀ a ∈ l, ∀ b ∈ l, (lt a b = true ↔ f b < f a)) :
    (stableSort lt l).Pairwise (fun a b => f b ≤ f a) := by
  unfold stableSort
  refine pairwise_foldl_insertSorted f lt l [] ?_ (by simp)
  intro a ha b hb
  rcases hb with hb | hb
  · exact hagree a ha b hb
  · simp at hb

lemma searchGap_eq_spec (hA hB : Int → Option F32) (n : Nat) :
    searchGap hA hB n = specCommonGap hA hB n := by
  induction n with
  | zero => rfl
  | succ n ih =>
    have hconcat : List.range' 1 (n + 1) = List.range' 1 n ++ [1 + n] := by
      rw [List.range'_concat]
      simp
    have hofnat : Int.ofNat (1 + n) = (n : Int) + 1 := by
      simp only [Int.ofNat_eq_natCast]
      push_cast
      ring
    unfold specCommonGap
    rw [hconcat, List.reverse_append]
    simp only [List.reverse_cons, List.reverse_nil, List.nil_append, List.singleton_append,
      List.find?_cons, hofnat]
    rcases hAv : hA ((n : Int) + 1) with _ | tA <;>
      rcases hBv : hB ((n : Int) + 1) with _ | tB <;>
        simp only [searchGap, hAv, hBv, hofnat, Option.isSome_none, Option.isSome_some,
          Bool.false_and, Bool.true_and, Bool.and_self, Option.getD_some, ih] <;>
      rfl

lemma qcmp_beq_lt_true_iff (a b : ℚ) : ((qcmp a b == .lt) = true) ↔ a < b := by
  unfold qcmp
  by_cases h1 : a < b
  · rw [if_pos h1]
    exact ⟨fun _ => h1, fun _ => by decide⟩
  · by_cases h2 : a = b
    · rw [if_neg h1, if_pos h2]
      exact ⟨fun hcon => absurd hcon (by decide), fun hab => absurd hab h1⟩
    · rw [if_neg h1, if_neg h2]
      exact ⟨fun hcon => absurd hcon (by decide), fun hab => absurd hab h1⟩

lemma pcmp_getD_self (x : F32) : (F32.pcmp x x).getD .eq = .eq := by
  cases x with
  | fin q => simp [F32.pcmp, qcmp]
  | nan => rfl
  | inf => rfl
  | ninf => rfl

lemma ordering_then_eq_right (o : Ordering) : o.then .eq = o := by
  cases o <;> rfl

lemma carLt_of_time_eq (a b : CarEntry) (ht : a.time = b.time) :
    carLt a b = ((F32.pcmp b.progress a.progress).getD .eq == .lt) := by
  unfold carLt carCmp
  rw [ht, pcmp_getD_self, ordering_then_eq_right]

lemma carEntries_eq (h : History) (telem : TelemetryData) :
    carEntries h telem = (List.range (distList telem).length).map
      (fun j => carEntryAt (lapsList telem) telem.SessionTime j
        ((distList telem).getD j default)) := by
  unfold carEntries
  rw [processCars_snd]
  refine List.map_congr_left ?_
  intro j _
  simp

lemma mem_carEntries (h : History) (telem : TelemetryData) (a : CarEntry) :
    a ∈ carEntries h telem ↔ ∃ j, j < (distList telem).length ∧
      a = carEntryAt (lapsList telem) telem.SessionTime j
        ((distList telem).getD j default) := by
  rw [carEntries_eq]
  simp only [List.mem_map, List.mem_range]
  constructor
  · rintro ⟨j, hj, rfl⟩
    exact ⟨j, hj, rfl⟩
  · rintro ⟨j, hj, rfl⟩
    exact ⟨j, hj, rfl⟩

lemma getD_mem_of_lt (l : List F32) (j : Nat) (hj : j < l.length) :
    l.getD j default ∈ l := by
  rw [List.getD_eq_getElem l default hj]
  exact List.getElem_mem hj

lemma carLt_agree (h : History) (telem : TelemetryData)
    (hfin : ∀ d ∈ distList telem, d.isFinite = true)
    (a b : CarEntry) (ha : a ∈ carEntries h telem) (hb : b ∈ carEntries h telem) :
    (carLt a b = true
      ↔ totalProgressRat telem b.idx < totalProgressRat telem a.idx) := by
  obtain ⟨j, hj, rfl⟩ := (mem_carEntries h telem a).mp ha
  obtain ⟨j', hj', rfl⟩ := (mem_carEntries h telem b).mp hb
  have hda := hfin _ (getD_mem_of_lt _ j hj)
  have hdb := hfin _ (getD_mem_of_lt _ j' hj')
  rcases hqa : (distList telem).getD j default with qa | _ | _ | _ <;>
    rw [hqa] at hda <;> try simp [F32.isFinite] at hda
  rcases hqb : (distList telem).getD j' default with qb | _ | _ | _ <;>
    rw [hqb] at hdb <;> try simp [F32.isFinite] at hdb
  rw [carLt_of_time_eq _ _ (by rw [carEntryAt_time, carEntryAt_time])]
  unfold carEntryAt totalProgressRat
  simp only [hqa, hqb, carEntryAt_idx, Int.toNat_natCast]
  simp only [F32.add, F32.pcmp, F32.toRatD, Option.getD_some]
  exact qcmp_beq_lt_true_iff _ _

lemma sortedCars_pairwise (order : List CarEntry → List CarEntry) (h : History)
    (telem : TelemetryData)
    (hperm : (order (carEntries h telem)).Perm (carEntries h telem))
    (hfin : ∀ d ∈ distList telem, d.isFinite = true) :
    (sortedCars order h telem).Pairwise
      (fun a b => totalProgressRat telem b.idx ≤ totalProgressRat telem a.idx) := by
  unfold sortedCars
  have key : ∀ g : Int → ℚ,
      (∀ a ∈ order (carEntries h telem), ∀ b ∈ order (carEntries h telem),
        (carLt a b = true ↔ g b.idx < g a.idx)) →
      (stableSort carLt (order (carEntries h telem))).Pairwise
        (fun a b => g b.idx ≤ g a.idx) :=
    fun g hg =>
      (pairwise_stableSort (fun e => g e.idx) carLt (order (carEntries h telem)) hg).imp
        (fun hab => hab)
  exact key (totalProgressRat telem)
    (fun a ha b hb => carLt_agree h telem hfin a b (hperm.subset ha) (hperm.subset hb))

lemma length_mkRecords (h : History) (sorted : List CarEntry) :
    (mkRecords h sorted).length = sorted.length := by
  simp [mkRecords]

lemma mkRecords_map_car_idx (h : History) (sorted : List CarEntry) :
    (mkRecords h sorted).map (fun g => g.car_idx) = sorted.map (fun e => e.idx) := by
  unfold mkRecords
  rw [List.map_map]
  exact map_getD_range sorted (fun e => e.idx)

lemma mkRecords_map_position (h : History) (sorted : List CarEntry) :
    (mkRecords h sorted).map (fun g => g.position)
      = (List.range sorted.length).map (fun (k : Nat) => ((k : Int) + 1)) := by
  unfold mkRecords
  rw [List.map_map]
  rfl

lemma mkRecords_getD (h : History) (sorted : List CarEntry) (i : Nat)
    (hi : i < sorted.length) :
    (mkRecords h sorted).getD i default =
      { car_idx := (sorted.getD i default).idx
        position := (i : Int) + 1
        gap_to_leader := gapToLeader h sorted i
        gap_to_next := gapToNext h sorted i
        gap_to_prev := gapToPrev h sorted i
        last_checkpoint := (sorted.getD i default).checkpoint
        last_checkpoint_time := (sorted.getD i default).time } := by
  unfold mkRecords
  exact getD_map_range _ sorted.length i hi

/-- Claim C1 (failing scenario): the session clock regresses from `10`
to `5` between two `calculate_gaps` calls, yet after the second call
the history still holds the first-tick entry (checkpoint 2 at time 10)
alongside the newly recorded checkpoint 0 at time 5 — the history is
not cleared on a session-time regression, and the entity has two
checkpoints in history after the regressed tick, not at most one. -/
theorem C1_no_session_reset_eval :
    F32.pcmp tickB.SessionTime tickA.SessionTime = some .lt
  ∧ (calculate_gaps id (calculate_gaps id emptyHist tickA).hist tickB).hist 0 2
      = some (F32.fin 10)
  ∧ (calculate_gaps id (calculate_gaps id emptyHist tickA).hist tickB).hist 0 0
      = some (F32.fin 5)
  ∧ (2 : Int) ≠ 0 :=
  ⟨by decide, by rfl, by rfl, by decide⟩

/-- Claim C2: once a `(entity, checkpoint) → time` entry exists in the
history, any later `calculate_gaps` call — in particular one presenting
the same checkpoint index for that entity again at a later session
time — leaves the recorded time unchanged. -/
theorem C2_first_crossing_never_overwritten (order : List CarEntry → List CarEntry)
    (h : History) (telem : TelemetryData) (e cp : Int) (v : F32)
    (hv : h e cp = some v) :
    (calculate_gaps order h telem).hist e cp = some v := by
  unfold calculate_gaps histAfter
  exact processCars_hist_pres _ _ _ _ _ _ _ _ hv

/-- Witness for C2: car 0 crossed checkpoint 2 at time 7; a later tick
at time 99 presenting checkpoint 2 again (11% of a lap) keeps 7. -/
theorem C2_first_crossing_never_overwritten_witness :
    histOne 0 2 = some (F32.fin 7)
  ∧ (calculate_gaps id histOne tickLate).hist 0 2 = some (F32.fin 7) :=
  ⟨by decide,
    C2_first_crossing_never_overwritten id histOne tickLate 0 2 (F32.fin 7) (by decide)⟩

/-- Claim C10: across any sequence of `calculate_gaps` calls — with
arbitrary session times, in particular regressing ones — an entry once
present in the checkpoint history persists with its value unchanged;
no call ever removes an entry. -/
theorem C10_history_entries_persist (order : List CarEntry → List CarEntry)
    (h : History) (ticks : List TelemetryData) (e cp : Int) (v : F32)
    (hv : h e cp = some v) :
    runTicks order h ticks e cp = some v := by
  induction ticks generalizing h with
  | nil => exact hv
  | cons tel rest ih =>
    simp only [runTicks]
    refine ih _ ?_
    unfold calculate_gaps histAfter
    exact processCars_hist_pres _ _ _ _ _ _ _ _ hv

/-- Witness for C10: an existing entry survives a two-tick run whose
second tick has a lower session time than the first. -/
theorem C10_history_entries_persist_witness :
    histOne 0 2 = some (F32.fin 7)
  ∧ runTicks id histOne [tickA, tickB] 0 2 = some (F32.fin 7) :=
  ⟨by decide,
    C10_history_entries_persist id histOne [tickA, tickB] 0 2 (F32.fin 7) (by decide)⟩

/-- Claim C8: in every tick with at least one ranked entity, the first
output record (rank 1) has `gap_to_leader = 0`, `gap_to_prev = 0` and
position `1`. -/
theorem C8_leader_gaps_zero (order : List CarEntry → List CarEntry)
    (h : History) (telem : TelemetryData)
    (hne : (calculate_gaps order h telem).records ≠ []) :
    ((calculate_gaps order h telem).records.getD 0 default).gap_to_leader = F32.fin 0
  ∧ ((calculate_gaps order h telem).records.getD 0 default).gap_to_prev = F32.fin 0
  ∧ ((calculate_gaps order h telem).records.getD 0 default).position = 1 := by
  have hlen0 : (calculate_gaps order h telem).records.length
      = (sortedCars order h telem).length := length_mkRecords _ _
  have hpos : 0 < (sortedCars order h telem).length := by
    rcases Nat.eq_zero_or_pos (sortedCars order h telem).length with h0 | h0
    · exact absurd (List.eq_nil_of_length_eq_zero (hlen0.trans h0)) hne
    · exact h0
  have hrec := mkRecords_getD (histAfter h telem) (sortedCars order h telem) 0 hpos
  refine ⟨?_, ?_, ?_⟩ <;>
    rw [show (calculate_gaps order h telem).records
        = mkRecords (histAfter h telem) (sortedCars order h telem) from rfl, hrec]
  · rfl
  · rfl
  · rfl

/-- Witness for C8 on a three-car tick. -/
theorem C8_leader_gaps_zero_witness :
    (calculate_gaps id emptyHist tickThree).records ≠ []
  ∧ (((calculate_gaps id emptyHist tickThree).records.getD 0 default).gap_to_leader
        = F32.fin 0
    ∧ ((calculate_gaps id emptyHist tickThree).records.getD 0 default).gap_to_prev
        = F32.fin 0
    ∧ ((calculate_gaps id emptyHist tickThree).records.getD 0 default).position = 1) :=
  ⟨by decide, C8_leader_gaps_zero id emptyHist tickThree (by decide)⟩

/-- Claim C4 (failing scenario): two entities with bit-for-bit equal
total progress; iterating the `car_data` hash map in insertion order
produces the records in one order, iterating it in the reversed
(equally legitimate) order produces them in the other order — the
output order is decided by the run-dependent `HashMap` iteration
order, not by the telemetry input. -/
theorem C4_tie_order_depends_on_iteration_order :
    (List.reverse (carEntries emptyHist tickTie)).Perm (carEntries emptyHist tickTie)
  ∧ (calculate_gaps id emptyHist tickTie).records.map (fun g => g.car_idx) = [0, 1]
  ∧ (calculate_gaps List.reverse emptyHist tickTie).records.map (fun g => g.car_idx)
      = [1, 0] :=
  ⟨by decide, by decide, by decide⟩

/-- Claim C5 (failing scenario): an entity whose progress sample is NaN
is not excluded — it is ranked (one record, for car 0, with checkpoint
0 produced by the NaN-to-zero `as i32` cast) and its history receives
a checkpoint-0 entry at the current session time. -/
theorem C5_nonfinite_not_excluded_eval :
    F32.isFinite F32.nan = false
  ∧ (calculate_gaps id emptyHist tickNan).records.map
      (fun g => (g.car_idx, g.last_checkpoint)) = [(0, 0)]
  ∧ (calculate_gaps id emptyHist tickNan).hist 0 0 = some (F32.fin 10) :=
  ⟨rfl, by decide, by decide⟩

lemma qadd_eq (a b : ℚ) : qadd a b = a + b :=
  (Rat.add_def' a b).symm

lemma qsub_eq (a b : ℚ) : qsub a b = a - b :=
  (Rat.sub_def' a b).symm

lemma qdivPos_eq (a b : ℚ) (hb : 0 < b) : qdivPos a b = a / b := by
  have hbn : 0 < b.num := Rat.num_pos.mpr hb
  unfold qdivPos
  rw [Rat.mkRat_eq_divInt, Rat.div_def']
  congr 1
  push_cast [Int.toNat_of_nonneg (le_of_lt hbn)]
  ring

lemma CHECKPOINT_INTERVAL_eq : CHECKPOINT_INTERVAL = (0.05 : ℚ) := by
  unfold CHECKPOINT_INTERVAL
  rw [Rat.mkRat_eq_div]
  norm_num

lemma CHECKPOINT_INTERVAL_pos : 0 < CHECKPOINT_INTERVAL := by
  rw [CHECKPOINT_INTERVAL_eq]
  norm_num

lemma ratTrunc_intCast (n : Int) : ratTrunc ((n : ℚ)) = n := by
  unfold ratTrunc
  by_cases hn : (0 : ℚ) ≤ ((n : ℚ))
  · rw [if_pos hn, Int.floor_intCast]
  · rw [if_neg hn, Int.ceil_intCast]

/-- Claim C7: for every entity with progress data in a tick, the
checkpoint stored in its `car_data` entry is
`⌊(distance_fraction + laps_completed) / 0.05⌋` (INTERVAL = 0.05, i.e.
20 checkpoints per lap), provided the value is in `i32` range (the
source additionally saturates the `as i32` cast outside that range). -/
theorem C7_checkpoint_formula (h : History) (telem : TelemetryData) (i : Nat) (q : ℚ)
    (hi : i < (distList telem).length)
    (hq : (distList telem).getD i default = F32.fin q)
    (hlo : -(2 ^ 31) ≤ ⌊(q + (((lapsList telem).getD i 0 : Int) : ℚ)) / (0.05 : ℚ)⌋)
    (hhi : ⌊(q + (((lapsList telem).getD i 0 : Int) : ℚ)) / (0.05 : ℚ)⌋ ≤ 2 ^ 31 - 1) :
    ((carEntries h telem).getD i default).checkpoint
      = ⌊(q + (((lapsList telem).getD i 0 : Int) : ℚ)) / (0.05 : ℚ)⌋ := by
  have hform : qdivPos (qadd q (((lapsList telem).getD i 0 : Int) : ℚ)) CHECKPOINT_INTERVAL
      = (q + (((lapsList telem).getD i 0 : Int) : ℚ)) / (0.05 : ℚ) := by
    rw [qadd_eq, qdivPos_eq _ _ CHECKPOINT_INTERVAL_pos, CHECKPOINT_INTERVAL_eq]
  rw [carEntries_eq, getD_map_range _ _ i hi]
  unfold carEntryAt
  rw [hq]
  simp only [F32.add, F32.divC, F32.floorF, F32.toI32]
  rw [hform, ratTrunc_intCast, min_eq_right hhi, max_eq_right hlo]

/-- Witness for C7: one car at 10% of lap 0 sits at checkpoint
`⌊0.1 / 0.05⌋ = 2`. -/
theorem C7_checkpoint_formula_witness :
    0 < (distList tickA).length
  ∧ (distList tickA).getD 0 default = F32.fin (mkRat 1 10)
  ∧ -(2 ^ 31) ≤ ⌊((mkRat 1 10 : ℚ) + (((lapsList tickA).getD 0 0 : Int) : ℚ)) / (0.05 : ℚ)⌋
  ∧ ⌊((mkRat 1 10 : ℚ) + (((lapsList tickA).getD 0 0 : Int) : ℚ)) / (0.05 : ℚ)⌋ ≤ 2 ^ 31 - 1
  ∧ ((carEntries emptyHist tickA).getD 0 default).checkpoint
      = ⌊((mkRat 1 10 : ℚ) + (((lapsList tickA).getD 0 0 : Int) : ℚ)) / (0.05 : ℚ)⌋ := by
  have hfl : ⌊((mkRat 1 10 : ℚ) + (((lapsList tickA).getD 0 0 : Int) : ℚ)) / (0.05 : ℚ)⌋
      = 2 := by
    rw [show ((lapsList tickA).getD 0 0 : Int) = 0 from rfl]
    rw [Rat.mkRat_eq_div]
    norm_num
  refine ⟨by decide, by rfl, by rw [hfl]; decide, by rw [hfl]; decide, ?_⟩
  exact C7_checkpoint_formula emptyHist tickA 0 (mkRat 1 10) (by decide) (by rfl)
    (by rw [hfl]; decide) (by rw [hfl]; decide)

/-- Claim C3 (counterexample): two ticks in which both cars only ever
reach checkpoint 0 (car 0 at time 10, car 1 at time 11).  The claimed
search — from `min` of the checkpoint indices down to and including
checkpoint 0 — finds common checkpoint 0 and yields gap
`11 - 10 = 1`, but the code reports `0`: its loop runs only while the
index is strictly positive and never examines checkpoint 0. -/
theorem C3_counterexample_checkpoint_zero :
    ((calculate_gaps id (calculate_gaps id emptyHist tickC1).hist tickC2).records.getD 1
        default).gap_to_leader = F32.fin 0
  ∧ ((calculate_gaps id (calculate_gaps id emptyHist tickC1).hist tickC2).records.getD 1
        default).last_checkpoint = 0
  ∧ ((calculate_gaps id (calculate_gaps id emptyHist tickC1).hist tickC2).records.getD 0
        default).last_checkpoint = 0
  ∧ ((calculate_gaps id (calculate_gaps id emptyHist tickC1).hist tickC2).records.getD 1
        default).car_idx = 1
  ∧ ((calculate_gaps id (calculate_gaps id emptyHist tickC1).hist tickC2).records.getD 0
        default).car_idx = 0
  ∧ claimCommonGap
      ((calculate_gaps id (calculate_gaps id emptyHist tickC1).hist tickC2).hist 1)
      ((calculate_gaps id (calculate_gaps id emptyHist tickC1).hist tickC2).hist 0) 0 0
      = F32.fin 1
  ∧ F32.fin 1 ≠ F32.fin 0 :=
  ⟨by rfl, by rfl, by rfl, by rfl, by rfl, by rfl, by decide⟩

/-- Claim C3 as amended: for a ranked entity at position `i > 0`, the
reported `gap_to_leader` (and `gap_to_prev`, and — when `i` is not the
last position — `gap_to_next`) equals the gap at the most recent
common checkpoint found by starting at the ranked entity's own
checkpoint index and walking the strictly positive checkpoint indices
downward; checkpoint 0 is never examined, and `0` is reported when no
strictly positive common checkpoint exists. -/
theorem C3_gap_search_own_checkpoint_strictly_positive
    (order : List CarEntry → List CarEntry) (h : History) (telem : TelemetryData)
    (i : Nat) (h0 : 0 < i) (hi : i < (sortedCars order h telem).length) :
    (((calculate_gaps order h telem).records.getD i default).gap_to_leader
      = specCommonGap
          (histAfter h telem ((sortedCars order h telem).getD i default).idx)
          (histAfter h telem ((sortedCars order h telem).getD 0 default).idx)
          ((sortedCars order h telem).getD i default).checkpoint.toNat)
  ∧ (((calculate_gaps order h telem).records.getD i default).gap_to_prev
      = specCommonGap
          (histAfter h telem ((sortedCars order h telem).getD i default).idx)
          (histAfter h telem ((sortedCars order h telem).getD (i - 1) default).idx)
          ((sortedCars order h telem).getD i default).checkpoint.toNat)
  ∧ (i ≠ (sortedCars order h telem).length - 1 →
      ((calculate_gaps order h telem).records.getD i default).gap_to_next
        = specCommonGap
            (histAfter h telem ((sortedCars order h telem).getD i default).idx)
            (histAfter h telem ((sortedCars order h telem).getD (i + 1) default).idx)
            ((sortedCars order h telem).getD i default).checkpoint.toNat) := by
  have hrec := mkRecords_getD (histAfter h telem) (sortedCars order h telem) i hi
  have hne0 : ¬ i = 0 := Nat.pos_iff_ne_zero.mp h0
  refine ⟨?_, ?_, ?_⟩
  · rw [show (calculate_gaps order h telem).records
        = mkRecords (histAfter h telem) (sortedCars order h telem) from rfl, hrec]
    show gapToLeader _ _ i = _
    unfold gapToLeader
    rw [if_neg hne0]
    exact searchGap_eq_spec _ _ _
  · rw [show (calculate_gaps order h telem).records
        = mkRecords (histAfter h telem) (sortedCars order h telem) from rfl, hrec]
    show gapToPrev _ _ i = _
    unfold gapToPrev
    rw [if_neg hne0]
    exact searchGap_eq_spec _ _ _
  · intro hlast
    rw [show (calculate_gaps order h telem).records
        = mkRecords (histAfter h telem) (sortedCars order h telem) from rfl, hrec]
    show gapToNext _ _ i = _
    unfold gapToNext
    rw [if_neg hlast]
    exact searchGap_eq_spec _ _ _

/-- Witness for the amended C3 on a concrete three-car tick at
position `i = 1`. -/
theorem C3_gap_search_own_checkpoint_strictly_positive_witness :
    0 < 1 ∧ 1 < (sortedCars id emptyHist tickThree).length
  ∧ ((((calculate_gaps id emptyHist tickThree).records.getD 1 default).gap_to_leader
      = specCommonGap
          (histAfter emptyHist tickThree ((sortedCars id emptyHist tickThree).getD 1 default).idx)
          (histAfter emptyHist tickThree ((sortedCars id emptyHist tickThree).getD 0 default).idx)
          ((sortedCars id emptyHist tickThree).getD 1 default).checkpoint.toNat)
  ∧ (((calculate_gaps id emptyHist tickThree).records.getD 1 default).gap_to_prev
      = specCommonGap
          (histAfter emptyHist tickThree ((sortedCars id emptyHist tickThree).getD 1 default).idx)
          (histAfter emptyHist tickThree ((sortedCars id emptyHist tickThree).getD 0 default).idx)
          ((sortedCars id emptyHist tickThree).getD 1 default).checkpoint.toNat)
  ∧ (1 ≠ (sortedCars id emptyHist tickThree).length - 1 →
      ((calculate_gaps id emptyHist tickThree).records.getD 1 default).gap_to_next
        = specCommonGap
            (histAfter emptyHist tickThree ((sortedCars id emptyHist tickThree).getD 1 default).idx)
            (histAfter emptyHist tickThree ((sortedCars id emptyHist tickThree).getD 2 default).idx)
            ((sortedCars id emptyHist tickThree).getD 1 default).checkpoint.toNat)) :=
  ⟨Nat.one_pos, by decide,
    C3_gap_search_own_checkpoint_strictly_positive id emptyHist tickThree 1
      Nat.one_pos (by decide)⟩

lemma pairwise_records_of_idx (g : Int → ℚ) (rec : List GapData) (ent : List CarEntry)
    (hmap : rec.map (fun r => r.car_idx) = ent.map (fun e => e.idx))
    (hp : ent.Pairwise (fun a b => g b.idx ≤ g a.idx)) :
    rec.Pairwise (fun r1 r2 => g r2.car_idx ≤ g r1.car_idx) := by
  have h1 : (ent.map (fun e => e.idx)).Pairwise (fun x y => g y ≤ g x) :=
    hp.map _ (fun a b hab => hab)
  rw [← hmap] at h1
  exact List.pairwise_map.mp h1

/-- Claim C6: for every tick whose progress samples are all finite, the
output records are sorted by total progress descending (adjacent or
not: every later record has total progress at most that of every
earlier one), and the `position` fields are exactly `1, 2, …` in
order, i.e. each rank is the 1-based position of the record and the
sequence is ordered by rank ascending. -/
theorem C6_ranking_sorted_descending (order : List CarEntry → List CarEntry)
    (h : History) (telem : TelemetryData)
    (hperm : (order (carEntries h telem)).Perm (carEntries h telem))
    (hfin : ∀ d ∈ distList telem, d.isFinite = true) :
    ((calculate_gaps order h telem).records).Pairwise
      (fun g1 g2 => totalProgressRat telem g2.car_idx ≤ totalProgressRat telem g1.car_idx)
  ∧ ((calculate_gaps order h telem).records).map (fun g => g.position)
      = (List.range ((calculate_gaps order h telem).records).length).map
          (fun (k : Nat) => ((k : Int) + 1)) := by
  constructor
  · exact pairwise_records_of_idx (totalProgressRat telem) _ _
      (mkRecords_map_car_idx (histAfter h telem) (sortedCars order h telem))
      (sortedCars_pairwise order h telem hperm hfin)
  · rw [show (calculate_gaps order h telem).records
        = mkRecords (histAfter h telem) (sortedCars order h telem) from rfl]
    rw [mkRecords_map_position, length_mkRecords]

/-- Witness for C6 on a three-car tick with distinct finite progress
values. -/
theorem C6_ranking_sorted_descending_witness :
    (id (carEntries emptyHist tickThree)).Perm (carEntries emptyHist tickThree)
  ∧ (∀ d ∈ distList tickThree, d.isFinite = true)
  ∧ (((calculate_gaps id emptyHist tickThree).records).Pairwise
      (fun g1 g2 => totalProgressRat tickThree g2.car_idx
        ≤ totalProgressRat tickThree g1.car_idx)
  ∧ ((calculate_gaps id emptyHist tickThree).records).map (fun g => g.position)
      = (List.range ((calculate_gaps id emptyHist tickThree).records).length).map
          (fun (k : Nat) => ((k : Int) + 1))) :=
  ⟨by decide, by decide,
    C6_ranking_sorted_descending id emptyHist tickThree (by decide) (by decide)⟩

/-- Claim C9: an entity index with no current progress sample (at or
beyond the length of the `CarIdxLapDistPct` array — in particular
every index when that field is absent) produces no output record and
is excluded from ranking, and its history is left exactly as it was. -/
theorem C9_absent_slot_excluded (order : List CarEntry → List CarEntry)
    (h : History) (telem : TelemetryData) (e : Nat) (cp : Int)
    (hperm : (order (carEntries h telem)).Perm (carEntries h telem))
    (he : (distList telem).length ≤ e) :
    ((calculate_gaps order h telem).records.all (fun g => g.car_idx != ((e : Nat) : Int))
        = true)
  ∧ (calculate_gaps order h telem).hist ((e : Nat) : Int) cp = h ((e : Nat) : Int) cp := by
  constructor
  · rw [List.all_eq_true]
    intro g hg
    have hmem : g.car_idx ∈ (sortedCars order h telem).map (fun en => en.idx) := by
      rw [← mkRecords_map_car_idx (histAfter h telem) (sortedCars order h telem)]
      exact List.mem_map_of_mem _ hg
    obtain ⟨a, ha, hidx⟩ := List.mem_map.mp hmem
    have ha2 : a ∈ carEntries h telem :=
      hperm.subset ((mem_stableSort carLt _ a).mp ha)
    obtain ⟨j, hj, rfl⟩ := (mem_carEntries h telem a).mp ha2
    rw [carEntryAt_idx] at hidx
    rw [bne_iff_ne, ← hidx]
    intro hcon
    have : j = e := by exact_mod_cast hcon
    omega
  · unfold calculate_gaps histAfter
    refine processCars_hist_outside _ _ _ _ _ _ _ ?_
    intro j hj
    intro hcon
    have : e = 0 + j := by exact_mod_cast hcon
    omega

/-- Witness for C9: entity 1 is beyond the single-slot tick; it gets no
record, and its (empty) history row is untouched. -/
theorem C9_absent_slot_excluded_witness :
    (id (carEntries histOne tickLate)).Perm (carEntries histOne tickLate)
  ∧ (distList tickLate).length ≤ 1
  ∧ (((calculate_gaps id histOne tickLate).records.all
        (fun g => g.car_idx != ((1 : Nat) : Int)) = true)
  ∧ (calculate_gaps id histOne tickLate).hist ((1 : Nat) : Int) 5
      = histOne ((1 : Nat) : Int) 5) :=
  ⟨by decide, by decide,
    C9_absent_slot_excluded id histOne tickLate 1 5 (by decide) (by decide)⟩
